import Mathlib

/-!
# Remarks — verification of the job orchestration and media-transcript pipeline

A shallow embedding of the Remarks repository's core data model and
operations, together with proofs of its specified properties.

The repository ships its front ends under `src/` (an Electron
`script.js` and a SwiftUI `ContentView.swift`); the backend core
(Job Orchestrator, Transcription Engine, Timeline Mapper) is described
by the specification but its code is not present, so those components
are modelled from the spec, definition by definition, as noted in the
doc comments below.  Timestamps (seconds) are modelled as rationals.
-/

namespace Remarks

/-! ## Data model -/

/-- Modelled from the spec: a TranscriptSegment — start time, end time
(seconds, relative to the media they were produced from), speaker label
(nullable), text.  The end time is called `stop` because `end` is a
Lean keyword. -/
structure TranscriptSegment where
  start : ℚ
  stop : ℚ
  speaker : Option String
  text : String
deriving DecidableEq, Repr

/-- Modelled from the spec: an EditDecision — one clip reference inside
an FCPXML sequence: source media id, in-point and out-point in source
time, placement (start offset) and duration in sequence time, and a
speed/rate factor.  `in` is a Lean keyword, hence `inPoint`/`outPoint`. -/
structure EditDecision where
  sourceId : String
  inPoint : ℚ
  outPoint : ℚ
  placement : ℚ
  duration : ℚ
  rate : ℚ
deriving DecidableEq, Repr

/-- Modelled from the spec: a MappedSegment — a TranscriptSegment
re-expressed in sequence time after projection through an EditDecision,
carrying the source clip id. -/
structure MappedSegment where
  start : ℚ
  stop : ℚ
  speaker : Option String
  text : String
  clipId : String
deriving DecidableEq, Repr

/-! ## Timeline Mapper (modelled from the spec) -/

/-- Modelled from the spec: per-decision validity — out-point > in-point,
rate > 0, and a positive sequence-time duration (standard NLE clip
semantics). -/
def decisionOk (d : EditDecision) : Bool :=
  decide (d.inPoint < d.outPoint) && decide (0 < d.rate) && decide (0 < d.duration)

/-- Modelled from the spec: placements are non-overlapping and
monotonically increasing — each decision's sequence-time span
`[placement, placement + duration)` ends no later than the next
decision's placement. -/
def placementsOrdered : List EditDecision → Bool
  | [] => true
  | [_] => true
  | a :: b :: rest =>
    decide (a.placement + a.duration ≤ b.placement) && placementsOrdered (b :: rest)

/-- Modelled from the spec: the EditSequence invariant checked by the
Timeline Mapper before projecting. -/
def sequenceOk (ds : List EditDecision) : Bool :=
  ds.all decisionOk && placementsOrdered ds

/-- Modelled from the spec: the Mapper rejects (fails validation) an
EditSequence violating the sequence invariant. -/
inductive MapperError where
  | invalidSequence
deriving DecidableEq, Repr

/-- Modelled from the spec: overlap of a decision's source-time interval
`[in, out)` with a transcript segment's `[start, end)`; for a non-empty
overlap, the emitted MappedSegment's sequence-time bounds are
`placement + (overlap.start - in) / rate` through
`placement + (overlap.end - in) / rate`, its text the verbatim text of
the segment; zero-overlap segments are dropped silently. -/
def mapSegment (d : EditDecision) (s : TranscriptSegment) : Option MappedSegment :=
  let os := max d.inPoint s.start
  let oe := min d.outPoint s.stop
  if os < oe then
    some { start := d.placement + (os - d.inPoint) / d.rate
           stop := d.placement + (oe - d.inPoint) / d.rate
           speaker := s.speaker
           text := s.text
           clipId := d.sourceId }
  else
    none

/-- Modelled from the spec: all MappedSegments one decision emits from a
transcript's segments. -/
def projectDecision (segs : List TranscriptSegment) (d : EditDecision) :
    List MappedSegment :=
  segs.filterMap (mapSegment d)

/-- Modelled from the spec: `project(transcript, edit_sequence)` —
validates the EditSequence first and rejects it before performing any
projection if validation fails; otherwise emits, for each EditDecision
in increasing placement order (the validated order), the MappedSegments
of every overlapping transcript segment. -/
def project (segs : List TranscriptSegment) (ds : List EditDecision) :
    Except MapperError (List MappedSegment) :=
  if sequenceOk ds then
    .ok (ds.flatMap (projectDecision segs))
  else
    .error .invalidSequence

/-- Two edit decisions overlap in placement when their sequence-time
spans `[placement, placement + duration)` intersect. -/
def placementOverlaps (a b : EditDecision) : Prop :=
  b.placement < a.placement + a.duration ∧ a.placement < b.placement + b.duration

/-! ## Transcription Engine segment normalization (modelled from the spec) -/

/-- Comparison of segments by start time. -/
def startLE (a b : TranscriptSegment) : Prop :=
  a.start ≤ b.start

instance : DecidableRel startLE :=
  fun a b => inferInstanceAs (Decidable (a.start ≤ b.start))

instance : IsTotal TranscriptSegment startLE :=
  ⟨fun a b => le_total a.start b.start⟩

instance : IsTrans TranscriptSegment startLE :=
  ⟨fun _ _ _ h h' => le_trans h h'⟩

/-- Order segments by start time (insertion sort). -/
def sortByStart (l : List TranscriptSegment) : List TranscriptSegment :=
  l.insertionSort startLE

/-- Modelled from the spec: segment boundaries must not overlap — if a
backend returns overlapping raw output, the engine truncates the earlier
segment's end to the next segment's start. -/
def truncateOverlaps : List TranscriptSegment → List TranscriptSegment
  | [] => []
  | [a] => [a]
  | a :: b :: rest =>
    (if b.start < a.stop then { a with stop := b.start } else a) ::
      truncateOverlaps (b :: rest)

/-- Modelled from the spec: the Transcription Engine's post-processing of
raw backend output — segments sorted by start time, then overlap
truncation. -/
def normalizeSegments (raw : List TranscriptSegment) : List TranscriptSegment :=
  truncateOverlaps (sortByStart raw)

/-- Segments are sorted by (monotonically non-decreasing) start time. -/
def SortedByStart (l : List TranscriptSegment) : Prop :=
  l.Pairwise startLE

/-- No two segments overlap: each earlier segment ends no later than any
later one begins. -/
def NonOverlapping (l : List TranscriptSegment) : Prop :=
  l.Pairwise fun a b => a.stop ≤ b.start

/-! ## Job Orchestrator (modelled from the spec) -/

/-- Modelled from the spec: the pipeline stages
download → extract-audio → transcribe → fcpxml re-map → persist. -/
inductive Stage where
  | download
  | extractAudio
  | transcribe
  | remap
  | persist
deriving DecidableEq, Repr

/-- Modelled from the spec: job status — `pending`, `running` (with
per-stage sub-states), `succeeded`, `failed`, `cancelled`. -/
inductive Status where
  | pending
  | running (stage : Stage)
  | succeeded
  | failed
  | cancelled
deriving DecidableEq, Repr

/-- Terminal statuses: succeeded, failed, cancelled. -/
def Status.isTerminal : Status → Bool
  | .succeeded => true
  | .failed => true
  | .cancelled => true
  | _ => false

/-- Modelled from the spec: job kinds —
download | transcribe | download+transcribe | fcpxml-transcribe. -/
inductive JobKind where
  | download
  | transcribe
  | downloadTranscribe
  | fcpxmlTranscribe
deriving DecidableEq, Repr

/-- Modelled from the spec: a Job — opaque id, target, kind, status. -/
structure Job where
  id : Nat
  target : String
  kind : JobKind
  status : Status
deriving DecidableEq, Repr

/-- Modelled from the spec: the orchestrator's state — the active-job
registry (keyed by (target, kind)) and a fresh-id counter. -/
structure OrchState where
  jobs : List Job
  nextId : Nat
deriving DecidableEq, Repr

/-- A job is in flight (active) when its status is not terminal. -/
def Job.isActive (j : Job) : Bool :=
  !j.status.isTerminal

/-- Modelled from the spec: registry lookup for an active job with the
given (target, kind) pair. -/
def findActive (σ : OrchState) (target : String) (kind : JobKind) : Option Job :=
  σ.jobs.find? fun j => j.target == target && j.kind == kind && j.isActive

/-- Modelled from the spec: `submit(target, kind) -> job_id` — a
duplicate submission while a job for the same (target, kind) is in
flight returns the existing job's id instead of creating a new one;
otherwise a Job is created in `pending`. -/
def submit (σ : OrchState) (target : String) (kind : JobKind) : Nat × OrchState :=
  match findActive σ target kind with
  | some j => (j.id, σ)
  | none =>
    (σ.nextId,
      { jobs := { id := σ.nextId, target := target, kind := kind, status := .pending } :: σ.jobs
        nextId := σ.nextId + 1 })

/-- Modelled from the spec: the status state machine
`pending → running(stage) → {succeeded, failed, cancelled}`. -/
inductive StatusStep : Status → Status → Prop
  | start (stage : Stage) : StatusStep .pending (.running stage)
  | advance (s₁ s₂ : Stage) : StatusStep (.running s₁) (.running s₂)
  | succeed (s : Stage) : StatusStep (.running s) .succeeded
  | fail (s : Stage) : StatusStep (.running s) .failed
  | cancel (s : Stage) : StatusStep (.running s) .cancelled

/-- Modelled from the spec: the orchestrator operations that drive a
job's lifecycle. -/
inductive Op where
  | submit (target : String) (kind : JobKind)
  | start (id : Nat) (stage : Stage)
  | setStage (id : Nat) (stage : Stage)
  | complete (id : Nat)
  | fail (id : Nat)
  | cancel (id : Nat)
deriving DecidableEq, Repr

/-- Modelled from the spec: the (guarded) status update an operation
performs on the job it addresses — each arm realizes one edge of the
state machine and leaves any other status unchanged. -/
def Op.statusUpdate : Op → Status → Status
  | .submit _ _, s => s
  | .start _ stage, s => match s with | .pending => .running stage | t => t
  | .setStage _ stage, s => match s with | .running _ => .running stage | t => t
  | .complete _, s => match s with | .running _ => .succeeded | t => t
  | .fail _, s => match s with | .running _ => .failed | t => t
  | .cancel _, s => match s with | .running _ => .cancelled | t => t

/-- The job id an operation addresses, if any. -/
def Op.targetId : Op → Option Nat
  | .submit _ _ => none
  | .start id _ => some id
  | .setStage id _ => some id
  | .complete id => some id
  | .fail id => some id
  | .cancel id => some id

/-- Apply one orchestrator operation to the state: `submit` consults the
coalescing registry; every other operation updates the addressed job's
status through the guarded state machine. -/
def applyOp (op : Op) (σ : OrchState) : OrchState :=
  match op with
  | .submit target kind => (submit σ target kind).2
  | _ =>
    { σ with
      jobs := σ.jobs.map fun j =>
        if op.targetId = some j.id then { j with status := op.statusUpdate j.status } else j }

/-- Apply a sequence of orchestrator operations in order. -/
def applyOps : List Op → OrchState → OrchState
  | [], σ => σ
  | op :: rest, σ => applyOps rest (applyOp op σ)

/-! ## Frontend (from src/frontend/script.js and ContentView.swift) -/

/-- `script.js` line 2: the current user's default download path,
`/Users/${process.env.USER}/Movies/remarks/library`. -/
def defaultPath (user : String) : String :=
  "/Users/" ++ user ++ "/Movies/remarks/library"

/-- Modelled from the spec: the backend `/default-path` endpoint (FastAPI
backend, not under src/) returns the default output directory derived
from the per-user media library root. -/
def defaultPathEndpoint (user : String) : String :=
  "/Users/" ++ user ++ "/Movies/remarks/library"

/-- `script.js` lines 12–20: the download-location input is initialized
from the backend's `/default-path` response; if that fetch fails, a
hard-coded fallback path is used. -/
def resolveDefaultLocation : Option String → String
  | some p => p
  | none => "/Users/adamderstine/Movies/remarks/library"

/-- The JSON body `script.js` posts to `/download`. -/
structure DownloadRequest where
  url : String
  download_dir : String
deriving DecidableEq, Repr

/-- Outcome of one click of the download button: either rejected with a
status message and no request sent, or a request sent with the status
text shown while it is in flight. -/
inductive ClickOutcome where
  | rejected (statusMsg : String)
  | sent (req : DownloadRequest) (statusMsg : String)
deriving DecidableEq, Repr

/-- Model of the JavaScript builtin `String.prototype.trim`: strip
leading and trailing whitespace. -/
def jsTrim (s : String) : String :=
  ⟨(((s.data.dropWhile Char.isWhitespace).reverse.dropWhile Char.isWhitespace).reverse)⟩

/-- `script.js` lines 46–67: the download-button click handler — trims
the URL input; if the result is empty, sets the status text and returns
without sending anything; otherwise sets the status to `Downloading...`
and posts the trimmed url and the current download-location value. -/
def downloadClick (urlValue locValue : String) : ClickOutcome :=
  let url := jsTrim urlValue
  if url = "" then
    .rejected "Please enter a video URL"
  else
    .sent { url := url, download_dir := locValue } "Downloading..."

/-- `ContentView.swift` lines 40–42: the decoded health response. -/
structure HealthResponse where
  status : String
deriving DecidableEq, Repr

/-- `ContentView.swift` lines 25–37: the completion handler of
`checkAPI`'s data task — the message is replaced only when response data
is present and decodes as a `HealthResponse`; otherwise (no data, or
decoding fails) the message is left unchanged.  The JSON decoder is an
external library, passed here as a parameter. -/
def checkAPICompletion (decode : String → Option HealthResponse)
    (message : String) (data : Option String) : String :=
  match data with
  | none => message
  | some d =>
    match decode d with
    | none => message
    | some r => "API Status: " ++ r.status

/-! ## Transcription Engine invariant (claim C3) -/

/-- Overlap truncation does not change any segment's start time. -/
theorem truncateOverlaps_map_start :
    ∀ l : List TranscriptSegment,
      (truncateOverlaps l).map TranscriptSegment.start = l.map TranscriptSegment.start
  | [] => rfl
  | [_] => rfl
  | a :: b :: rest => by
    have ih := truncateOverlaps_map_start (b :: rest)
    simp only [truncateOverlaps, List.map_cons] at ih ⊢
    rw [ih]
    split <;> rfl

/-- On a start-sorted list, overlap truncation keeps the list start-sorted
and makes it non-overlapping. -/
theorem truncateOverlaps_preserves :
    ∀ l : List TranscriptSegment, SortedByStart l →
      SortedByStart (truncateOverlaps l) ∧ NonOverlapping (truncateOverlaps l)
  | [] => fun _ => ⟨List.Pairwise.nil, List.Pairwise.nil⟩
  | [a] => fun _ => ⟨List.pairwise_singleton _ a, List.pairwise_singleton _ a⟩
  | a :: b :: rest => by
    intro hs
    rw [SortedByStart, List.pairwise_cons] at hs
    obtain ⟨ha, hs'⟩ := hs
    obtain ⟨ihSorted, ihNon⟩ := truncateOverlaps_preserves (b :: rest) hs'
    have hstarts : ∀ x ∈ truncateOverlaps (b :: rest), b.start ≤ x.start := by
      intro x hx
      have hx' : x.start ∈ (truncateOverlaps (b :: rest)).map TranscriptSegment.start :=
        List.mem_map_of_mem _ hx
      rw [truncateOverlaps_map_start] at hx'
      obtain ⟨y, hy, hyx⟩ := List.mem_map.mp hx'
      rcases List.mem_cons.mp hy with rfl | hyr
      · exact hyx.le
      · exact hyx ▸ (List.pairwise_cons.mp hs').1 y hyr
    set a' : TranscriptSegment :=
      if b.start < a.stop then { a with stop := b.start } else a with ha'
    have ha'start : a'.start = a.start := by
      rw [ha']; split <;> rfl
    have ha'stop : a'.stop ≤ b.start := by
      rw [ha']; split
      · exact le_refl _
      · exact le_of_not_lt (by assumption)
    have hstep : truncateOverlaps (a :: b :: rest) = a' :: truncateOverlaps (b :: rest) := by
      rw [truncateOverlaps]
    constructor
    · rw [SortedByStart, hstep, List.pairwise_cons]
      refine ⟨fun x hx => ?_, ihSorted⟩
      have hab : a.start ≤ b.start := ha b (List.mem_cons_self b rest)
      show a'.start ≤ x.start
      rw [ha'start]
      exact le_trans hab (hstarts x hx)
    · rw [NonOverlapping, hstep, List.pairwise_cons]
      exact ⟨fun x hx => le_trans ha'stop (hstarts x hx), ihNon⟩

/-- C3: every Transcript produced by the Transcription Engine has its
segments sorted by start time with no two segments overlapping; and when
adjacent sorted segments overlap, the earlier segment's end time is
truncated to the next segment's start time. -/
theorem normalizeSegments_sorted_nonoverlapping (raw : List TranscriptSegment) :
    SortedByStart (normalizeSegments raw) ∧ NonOverlapping (normalizeSegments raw) ∧
      ∀ (a b : TranscriptSegment) (l : List TranscriptSegment),
        truncateOverlaps (a :: b :: l) =
          (if b.start < a.stop then { a with stop := b.start } else a) ::
            truncateOverlaps (b :: l) := by
  have hsorted : SortedByStart (sortByStart raw) :=
    List.sorted_insertionSort startLE raw
  obtain ⟨h₁, h₂⟩ := truncateOverlaps_preserves (sortByStart raw) hsorted
  exact ⟨h₁, h₂, fun a b l => by rw [truncateOverlaps]⟩

/-! ## Timeline Mapper projection (claims C1, C4, C5, C6) -/

/-- C1: for every EditDecision in an EditSequence and every
TranscriptSegment whose source-time interval `[start, end)` has a
non-empty overlap with the decision's `[in, out)`, `project` emits a
MappedSegment whose sequence-time bounds equal
`placement + (overlap.start - in) / rate` and
`placement + (overlap.end - in) / rate`, and whose text is the verbatim
text of the overlapping transcript segment. -/
theorem project_emits_overlapping_segments
    (segs : List TranscriptSegment) (ds : List EditDecision)
    (ms : List MappedSegment) (hp : project segs ds = .ok ms)
    (d : EditDecision) (hd : d ∈ ds)
    (s : TranscriptSegment) (hs : s ∈ segs)
    (hov : max d.inPoint s.start < min d.outPoint s.stop) :
    ({ start := d.placement + (max d.inPoint s.start - d.inPoint) / d.rate
       stop := d.placement + (min d.outPoint s.stop - d.inPoint) / d.rate
       speaker := s.speaker
       text := s.text
       clipId := d.sourceId } : MappedSegment) ∈ ms := by
  rw [project] at hp
  split at hp
  · have hms : ms = ds.flatMap (projectDecision segs) := by
      cases hp; rfl
    subst hms
    refine List.mem_flatMap.mpr ⟨d, hd, ?_⟩
    refine List.mem_filterMap.mpr ⟨s, hs, ?_⟩
    simp only [mapSegment]
    rw [if_pos hov]
  · cases hp

theorem project_emits_overlapping_segments_witness :
    ({ start := 0 + (max (0 : ℚ) 2 - 0) / 1
       stop := 0 + (min (10 : ℚ) 5 - 0) / 1
       speaker := none
       text := "hi"
       clipId := "c" } : MappedSegment) ∈
      [({ start := 2, stop := 5, speaker := none, text := "hi", clipId := "c" } :
        MappedSegment)] :=
  project_emits_overlapping_segments
    [{ start := 2, stop := 5, speaker := none, text := "hi" }]
    [{ sourceId := "c", inPoint := 0, outPoint := 10, placement := 0, duration := 10, rate := 1 }]
    [{ start := 2, stop := 5, speaker := none, text := "hi", clipId := "c" }]
    (by
      simp only [project, sequenceOk, decisionOk, placementsOrdered, List.all_cons,
        List.all_nil, List.flatMap_cons, List.flatMap_nil, projectDecision,
        List.filterMap_cons, List.filterMap_nil, mapSegment]
      norm_num)
    _ (List.mem_singleton.mpr rfl)
    _ (List.mem_singleton.mpr rfl)
    (by norm_num)

/-- C4: projecting a transcript through an EditSequence consisting of a
single EditDecision that covers the full source media (in-point 0,
out-point the media duration) with rate 1 and placement 0 yields exactly
the original transcript's segments, with only the clip-id field added. -/
theorem project_identity_roundtrip
    (segs : List TranscriptSegment) (srcId : String) (D : ℚ) (hD : 0 < D)
    (hsegs : ∀ s ∈ segs, 0 ≤ s.start ∧ s.start < s.stop ∧ s.stop ≤ D) :
    project segs
        [{ sourceId := srcId, inPoint := 0, outPoint := D, placement := 0,
           duration := D, rate := 1 }] =
      .ok (segs.map fun s =>
        { start := s.start, stop := s.stop, speaker := s.speaker,
          text := s.text, clipId := srcId }) := by
  have hok : sequenceOk
      [{ sourceId := srcId, inPoint := 0, outPoint := D, placement := 0,
         duration := D, rate := 1 }] = true := by
    simp [sequenceOk, decisionOk, placementsOrdered, hD]
  rw [project, hok, if_pos rfl]
  simp only [List.flatMap_cons, List.flatMap_nil, List.append_nil, projectDecision]
  congr 1
  induction segs with
  | nil => rfl
  | cons s t ih =>
    obtain ⟨h₀, h₁, h₂⟩ := hsegs s (List.mem_cons_self s t)
    rw [List.filterMap_cons, List.map_cons, mapSegment]
    simp only
    rw [max_eq_right h₀, min_eq_right h₂, if_pos h₁,
      ih fun x hx => hsegs x (List.mem_cons_of_mem s hx)]
    simp [sub_zero, div_one, zero_add]

theorem project_identity_roundtrip_witness :
    project [{ start := 0, stop := 1, speaker := none, text := "a" }]
        [{ sourceId := "c", inPoint := 0, outPoint := 1, placement := 0,
           duration := 1, rate := 1 }] =
      .ok [({ start := 0, stop := 1, speaker := none, text := "a", clipId := "c" } :
        MappedSegment)] :=
  project_identity_roundtrip
    [{ start := 0, stop := 1, speaker := none, text := "a" }] "c" 1
    (by norm_num)
    (by
      intro s hs
      rw [List.mem_singleton] at hs
      subst hs
      norm_num)

/-- C5: for every transcript segment mapped through an EditDecision with
rate 2, the sequence-time duration of the resulting MappedSegment equals
half the overlapped source-time duration, within a tolerance of
`1 / 1000` seconds (in this rational-arithmetic model the difference is
exactly zero). -/
theorem mapSegment_rate_two_halves_duration
    (d : EditDecision) (s : TranscriptSegment) (m : MappedSegment)
    (hr : d.rate = 2) (hm : mapSegment d s = some m) :
    |(m.stop - m.start) -
        (min d.outPoint s.stop - max d.inPoint s.start) / 2| ≤ 1 / 1000 := by
  simp only [mapSegment] at hm
  split at hm
  · have hm' := (Option.some_inj.mp hm).symm
    subst hm'
    simp only [hr]
    have : d.placement + (min d.outPoint s.stop - d.inPoint) / 2 -
        (d.placement + (max d.inPoint s.start - d.inPoint) / 2) -
        (min d.outPoint s.stop - max d.inPoint s.start) / 2 = 0 := by ring
    rw [this]
    norm_num
  · cases hm

theorem mapSegment_rate_two_halves_duration_witness :
    |((3 : ℚ) - 1) - (min (10 : ℚ) 6 - max (0 : ℚ) 2) / 2| ≤ 1 / 1000 :=
  mapSegment_rate_two_halves_duration
    { sourceId := "c", inPoint := 0, outPoint := 10, placement := 0, duration := 5, rate := 2 }
    { start := 2, stop := 6, speaker := none, text := "hi" }
    { start := 1, stop := 3, speaker := none, text := "hi", clipId := "c" }
    rfl
    (by
      simp only [mapSegment]
      norm_num)

/-- The sequence invariant implies each decision's sequence-time span
ends no later than any later decision's placement. -/
theorem placements_pairwise :
    ∀ ds : List EditDecision, (∀ d ∈ ds, 0 < d.duration) →
      placementsOrdered ds = true →
      ds.Pairwise fun a b => a.placement + a.duration ≤ b.placement
  | [] => fun _ _ => List.Pairwise.nil
  | [a] => fun _ _ => List.pairwise_singleton _ a
  | a :: b :: rest => by
    intro hdur hord
    rw [placementsOrdered, Bool.and_eq_true, decide_eq_true_eq] at hord
    have ih := placements_pairwise (b :: rest)
      (fun d hd => hdur d (List.mem_cons_of_mem a hd)) hord.2
    rw [List.pairwise_cons]
    refine ⟨fun x hx => ?_, ih⟩
    rcases List.mem_cons.mp hx with rfl | hxr
    · exact hord.1
    · have hbx : b.placement + b.duration ≤ x.placement :=
        (List.pairwise_cons.mp ih).1 x hxr
      have hb : 0 < b.duration := hdur b (List.mem_cons_of_mem a (List.mem_cons_self b rest))
      refine le_of_lt ?_
      calc a.placement + a.duration ≤ b.placement := hord.1
        _ < b.placement + b.duration := by linarith
        _ ≤ x.placement := hbx

/-- C6: the Timeline Mapper fails validation and rejects — before
performing any projection — every EditSequence in which some pair of
decisions overlaps in placement or some decision's out-point is not
strictly greater than its in-point. -/
theorem project_rejects_invalid_sequence
    (segs : List TranscriptSegment) (ds : List EditDecision)
    (h : (∃ (i j : Fin ds.length), i < j ∧
            placementOverlaps (ds.get i) (ds.get j)) ∨
         ∃ d ∈ ds, d.outPoint ≤ d.inPoint) :
    project segs ds = .error .invalidSequence := by
  have hbad : sequenceOk ds = false := by
    rw [← Bool.not_eq_true]
    intro hok
    rw [sequenceOk, Bool.and_eq_true, List.all_eq_true] at hok
    obtain ⟨hall, hord⟩ := hok
    have hdec : ∀ d ∈ ds, d.inPoint < d.outPoint ∧ 0 < d.rate ∧ 0 < d.duration := by
      intro d hd
      have := hall d hd
      rw [decisionOk, Bool.and_eq_true, Bool.and_eq_true,
        decide_eq_true_eq, decide_eq_true_eq, decide_eq_true_eq] at this
      exact ⟨this.1.1, this.1.2, this.2⟩
    rcases h with ⟨i, j, hij, hov⟩ | ⟨d, hd, hin⟩
    · have hpw := placements_pairwise ds (fun d hd => (hdec d hd).2.2) hord
      have hle : (ds.get i).placement + (ds.get i).duration ≤ (ds.get j).placement :=
        List.pairwise_iff_get.mp hpw i j hij
      exact absurd hov.1 (not_lt.mpr hle)
    · exact absurd (hdec d hd).1 (not_lt.mpr hin)
  rw [project, hbad]
  rfl

theorem project_rejects_invalid_sequence_witness :
    project []
        [{ sourceId := "c", inPoint := 5, outPoint := 5, placement := 0,
           duration := 1, rate := 1 }] =
      .error .invalidSequence :=
  project_rejects_invalid_sequence []
    [{ sourceId := "c", inPoint := 5, outPoint := 5, placement := 0,
       duration := 1, rate := 1 }]
    (Or.inr ⟨_, List.mem_singleton.mpr rfl, le_refl 5⟩)

/-! ## Job Orchestrator coalescing and lifecycle (claims C2, C7) -/

/-- C2: a `submit` call made while a job with the same (target, kind)
pair is still in flight — the orchestrator's invariant making it the
unique active job for that pair — returns that job's id and leaves the
state unchanged: no new job is created. -/
theorem submit_coalesces_in_flight
    (σ : OrchState) (target : String) (kind : JobKind) (j : Job)
    (hj : j ∈ σ.jobs) (htarget : j.target = target) (hkind : j.kind = kind)
    (hact : j.isActive = true)
    (huniq : ∀ j' ∈ σ.jobs, j'.target = target → j'.kind = kind →
      j'.isActive = true → j' = j) :
    submit σ target kind = (j.id, σ) := by
  have hpj : (j.target == target && j.kind == kind && j.isActive) = true := by
    simp [htarget, hkind, hact]
  have hsome : (σ.jobs.find? fun k =>
      k.target == target && k.kind == kind && k.isActive).isSome := by
    exact List.find?_isSome.mpr ⟨j, hj, hpj⟩
  obtain ⟨y, hy⟩ := Option.isSome_iff_exists.mp hsome
  have hmem : y ∈ σ.jobs := List.mem_of_find?_eq_some hy
  have hprop := List.find?_some hy
  rw [Bool.and_eq_true, Bool.and_eq_true, beq_iff_eq, beq_iff_eq] at hprop
  have hyj : y = j := huniq y hmem hprop.1.1 hprop.1.2 hprop.2
  subst hyj
  simp only [submit, findActive]
  rw [hy]

theorem submit_coalesces_in_flight_witness :
    submit
        { jobs := [{ id := 7, target := "t", kind := .download,
                     status := .running .download }], nextId := 8 }
        "t" .download =
      (7,
        { jobs := [{ id := 7, target := "t", kind := .download,
                     status := .running .download }], nextId := 8 }) :=
  submit_coalesces_in_flight _ "t" .download
    { id := 7, target := "t", kind := .download, status := .running .download }
    (List.mem_singleton.mpr rfl) rfl rfl rfl (by decide)

/-- An operation's guarded status update leaves every terminal status
unchanged. -/
theorem statusUpdate_terminal_fixed (op : Op) (s : Status)
    (ht : s.isTerminal = true) : op.statusUpdate s = s := by
  cases op <;> cases s <;> simp_all [Op.statusUpdate, Status.isTerminal]

/-- No edge of the status state machine leaves a terminal status. -/
theorem statusStep_not_from_terminal (s s' : Status)
    (ht : s.isTerminal = true) : ¬ StatusStep s s' := by
  intro h
  cases h <;> simp [Status.isTerminal] at ht

/-- One orchestrator operation leaves a terminal job in the registry,
untouched. -/
theorem applyOp_terminal_mem (op : Op) (σ : OrchState) (j : Job)
    (hj : j ∈ σ.jobs) (ht : j.status.isTerminal = true) :
    j ∈ (applyOp op σ).jobs := by
  have hmapmem : j ∈ σ.jobs.map (fun k =>
      if op.targetId = some k.id then { k with status := op.statusUpdate k.status }
      else k) := by
    refine List.mem_map.mpr ⟨j, hj, ?_⟩
    by_cases hid : op.targetId = some j.id
    · rw [if_pos hid, statusUpdate_terminal_fixed op j.status ht]
    · rw [if_neg hid]
  cases op with
  | submit t k =>
    simp only [applyOp, submit]
    cases hfa : findActive σ t k with
    | some j' => exact hj
    | none => exact List.mem_cons_of_mem _ hj
  | start id stage => exact hmapmem
  | setStage id stage => exact hmapmem
  | complete id => exact hmapmem
  | fail id => exact hmapmem
  | cancel id => exact hmapmem

/-- A whole sequence of orchestrator operations leaves a terminal job in
the registry, untouched. -/
theorem applyOps_terminal_mem (ops : List Op) (σ : OrchState) (j : Job)
    (hj : j ∈ σ.jobs) (ht : j.status.isTerminal = true) :
    j ∈ (applyOps ops σ).jobs := by
  induction ops generalizing σ with
  | nil => exact hj
  | cons op rest ih =>
    exact ih (applyOp op σ) (applyOp_terminal_mem op σ j hj ht)

/-- C7: once a job reaches a terminal status (succeeded, failed, or
cancelled), no sequence of orchestrator operations changes it — it never
transitions back to pending or running — and every status change any
operation performs follows the state machine
`pending → running(stage) → {succeeded, failed, cancelled}`. -/
theorem terminal_status_never_reverts (ops : List Op) (σ : OrchState) (j : Job)
    (hj : j ∈ σ.jobs) (ht : j.status.isTerminal = true) :
    j ∈ (applyOps ops σ).jobs ∧
      (∀ s', ¬ StatusStep j.status s') ∧
      ∀ (op : Op) (s : Status),
        op.statusUpdate s = s ∨ StatusStep s (op.statusUpdate s) := by
  refine ⟨applyOps_terminal_mem ops σ j hj ht,
    fun s' => statusStep_not_from_terminal j.status s' ht,
    fun op s => ?_⟩
  cases op <;> cases s <;>
    first
    | exact Or.inl rfl
    | exact Or.inr (StatusStep.start _)
    | exact Or.inr (StatusStep.advance _ _)
    | exact Or.inr (StatusStep.succeed _)
    | exact Or.inr (StatusStep.fail _)
    | exact Or.inr (StatusStep.cancel _)

theorem terminal_status_never_reverts_witness :
    ({ id := 0, target := "t", kind := .download, status := .succeeded } : Job) ∈
      (applyOps [.start 0 .download, .cancel 0]
        { jobs := [{ id := 0, target := "t", kind := .download,
                     status := .succeeded }], nextId := 1 }).jobs ∧
      (∀ s', ¬ StatusStep .succeeded s') ∧
      ∀ (op : Op) (s : Status),
        op.statusUpdate s = s ∨ StatusStep s (op.statusUpdate s) :=
  terminal_status_never_reverts [.start 0 .download, .cancel 0] _
    { id := 0, target := "t", kind := .download, status := .succeeded }
    (List.mem_singleton.mpr rfl) rfl

/-! ## Frontend behavior (claims C8, C9, C10) -/

/-- C8: the default output directory offered when none is overridden is
the backend-provided per-user media library path (the user's
Movies-based library root, matching `script.js`'s `defaultPath`), and a
per-submission override replaces it in the posted request. -/
theorem default_location_per_user_override (user url override : String)
    (hurl : jsTrim url ≠ "") :
    resolveDefaultLocation (some (defaultPathEndpoint user)) = defaultPath user ∧
      downloadClick url (resolveDefaultLocation (some (defaultPathEndpoint user))) =
        .sent { url := jsTrim url, download_dir := defaultPath user } "Downloading..." ∧
      downloadClick url override =
        .sent { url := jsTrim url, download_dir := override } "Downloading..." := by
  refine ⟨rfl, ?_, ?_⟩ <;>
    · simp only [downloadClick, resolveDefaultLocation, defaultPathEndpoint, defaultPath]
      rw [if_neg hurl]

theorem default_location_per_user_override_witness :
    resolveDefaultLocation (some (defaultPathEndpoint "alice")) = defaultPath "alice" ∧
      downloadClick "http://v" (resolveDefaultLocation (some (defaultPathEndpoint "alice"))) =
        .sent { url := jsTrim "http://v", download_dir := defaultPath "alice" }
          "Downloading..." ∧
      downloadClick "http://v" "/d" =
        .sent { url := jsTrim "http://v", download_dir := "/d" } "Downloading..." :=
  default_location_per_user_override "alice" "http://v" "/d" (by decide)

/-- C9: clicking the download button with a URL whose trimmed value is
empty sends no request to the backend; the status text is set to
`Please enter a video URL` and the handler returns with no other
effect. -/
theorem downloadClick_empty_url_rejected (urlValue locValue : String)
    (h : jsTrim urlValue = "") :
    downloadClick urlValue locValue = .rejected "Please enter a video URL" := by
  simp only [downloadClick]
  rw [if_pos h]

theorem downloadClick_empty_url_rejected_witness :
    downloadClick "   " "/Users/alice/Movies/remarks/library" =
      .rejected "Please enter a video URL" :=
  downloadClick_empty_url_rejected "   " "/Users/alice/Movies/remarks/library" (by decide)

/-- C10: `checkAPI`'s completion handler updates the displayed message
(to the decoded API status) only when response data is present and
decodes successfully as a HealthResponse; with missing data (network
error) or a body the decoder rejects, the message is left unchanged. -/
theorem checkAPI_message_update_guarded
    (decode : String → Option HealthResponse) (message : String)
    (data : Option String) :
    (data = none → checkAPICompletion decode message data = message) ∧
      (∀ d, data = some d → decode d = none →
        checkAPICompletion decode message data = message) ∧
      ∀ d r, data = some d → decode d = some r →
        checkAPICompletion decode message data = "API Status: " ++ r.status := by
  refine ⟨fun h => ?_, fun d hd hdec => ?_, fun d r hd hdec => ?_⟩
  · rw [h, checkAPICompletion]
  · rw [hd, checkAPICompletion, hdec]
  · rw [hd, checkAPICompletion, hdec]

theorem checkAPI_message_update_guarded_witness :
    (checkAPICompletion (fun _ => some { status := "ok" }) "Loading..." none =
        "Loading..." ∧
      checkAPICompletion (fun _ => none) "Loading..." (some "garbage") =
        "Loading..." ∧
      checkAPICompletion (fun _ => some { status := "ok" }) "Loading..." (some "{}") =
        "API Status: " ++ "ok") :=
  ⟨(checkAPI_message_update_guarded (fun _ => some { status := "ok" })
      "Loading..." none).1 rfl,
    (checkAPI_message_update_guarded (fun _ => none)
      "Loading..." (some "garbage")).2.1 "garbage" rfl rfl,
    (checkAPI_message_update_guarded (fun _ => some { status := "ok" })
      "Loading..." (some "{}")).2.2 "{}" { status := "ok" } rfl rfl⟩

end Remarks
